import Mathlib

/-!
# Verification of the lichess-knockout orchestration core

Shallow embedding of the pure orchestration logic of `knockout.py` (class
`KnockOut`) and `main.py`:

* configuration validation (`KnockOut._ValidateInput`) and the derived
  round counts with their assertions (`KnockOut.__init__`);
* the seed tree (module `trees`, absent from the sources; modelled from the
  spec) and round-0 pairing construction (`KnockOut._StartMatches`);
* match resolution and tie-breaks (`KnockOut._FinishMatches`);
* promotion of winners into the next pairing round (`KnockOut._StartMatches`);
* the registration reconciliation loop (`KnockOut._WaitForStart`);
* the resilient request wrappers (`KnockOut._RunGetRequest` /
  `KnockOut._RunPostRequest` / `KnockOut._KillTournament`);
* the wait-for-round-completion loop (`KnockOut._WaitForGamesToFinish`).

Scores are embedded as rationals: the Python floats involved are sums of the
values 0, 0.5 and 1, which IEEE doubles represent and compare exactly.
Remote I/O is represented by its observable data: lists of live registrants,
per-attempt success flags, and host status reports.
-/

/-! ## Pairing entries and match resolution (`knockout.py` lines 1368-1411) -/

/-- One entry of a pairing round: `[PlayerName, HasWon, GameScores]` in the
source's list-of-lists representation (`knockout.py` line 150). -/
structure PairingEntry where
  name : String
  hasWon : Bool
  gameScores : List ℚ
deriving DecidableEq

/-- The `Player1Won` computation of `KnockOut._FinishMatches`
(`knockout.py` lines 1384-1406): higher summed score wins; on a tie,
mode `"rating"` lets player 1 win iff `rating1 <= rating2`, and any other
mode (i.e. `"color"`, the only other validated value) decides from
`TopGetsWhite` for the current match round. -/
def resolveMatch (tieBreak : String) (topGetsWhite : Bool)
    (score1 score2 : ℚ) (rating1 rating2 : ℕ) : Bool :=
  if score1 > score2 then true
  else if score1 < score2 then false
  else if tieBreak = "rating" then
    if rating1 ≤ rating2 then true else false
  else
    if topGetsWhite then false else true

/-- The marking loop of `KnockOut._FinishMatches` (`knockout.py` lines
1374-1411): for each adjacent pair, compute `Player1Won` from the summed
game scores and the ratings, store it into entry `2*i` and its negation
into entry `2*i+1`.  The `rating` argument stands for the lookup
`self._Participants[player]["rating"]`. -/
def finishMatches (tieBreak : String) (topGetsWhite : Bool)
    (rating : String → ℕ) : List PairingEntry → List PairingEntry
  | e1 :: e2 :: rest =>
    let w := resolveMatch tieBreak topGetsWhite e1.gameScores.sum
      e2.gameScores.sum (rating e1.name) (rating e2.name)
    { e1 with hasWon := w } :: { e2 with hasWon := !w } ::
      finishMatches tieBreak topGetsWhite rating rest
  | other => other

/-- The per-pair invariant checked by the assertion in
`KnockOut._StartMatches` (`knockout.py` line 1195): every adjacent pair has
exactly one entry with `hasWon = True`. -/
def pairsComplete : List PairingEntry → Bool
  | e1 :: e2 :: rest => (e1.hasWon != e2.hasWon) && pairsComplete rest
  | _ => true

/-- The `m > 0` branch of `KnockOut._StartMatches` (`knockout.py` lines
1187-1203): for each adjacent pair of the previous round, assert exactly one
winner (`none` models the fatal `AssertionError`), then append the winner
with a reset flag and empty score list. -/
def nextRound : List PairingEntry → Option (List PairingEntry)
  | e1 :: e2 :: rest =>
    if e1.hasWon = e2.hasWon then none
    else (nextRound rest).map
      (fun l => ⟨if e1.hasWon then e1.name else e2.name, false, []⟩ :: l)
  | _ => some []

/-- Following the spec's words (§4.5): build the next pairing list by
promoting each match's `hasWon` participant from the previous pairing round,
with winner flag reset and empty game scores.  Used to compare against the
source-derived `nextRound`. -/
def promoteWinners : List PairingEntry → List PairingEntry
  | e1 :: e2 :: rest =>
    ⟨if e1.hasWon then e1.name else e2.name, false, []⟩ :: promoteWinners rest
  | _ => []

/-! ## The seed tree and round-0 pairings (`knockout.py` lines 1159-1185) -/

/-- Modelled from the spec: the module `trees` (file `trees.py`, providing
the table `Trees[TreeSize]` used at `knockout.py` line 1173) is not among
the sources.  The spec (§4.1 SeedTree) gives the recursive construction:
`build(1) = [1]`, and `build(2n)` places each element `x` of `build(n)`
followed by its mirror `2n+1-x`.  `seedTree k` is the placement order for
`TreeSize = 2^k`. -/
def seedTree : ℕ → List ℕ
  | 0 => [1]
  | k + 1 => (seedTree k).flatMap (fun x => [x, 2 ^ (k + 1) + 1 - x])

/-- The name placed at a slot with seed rank `s` (1-based), from the
`m == 0` branch of `KnockOut._StartMatches` (`knockout.py` lines 1170-1180):
`t = Trees[TreeSize][i] - 1`; the `t`-th confirmed participant if
`t < len(participants)`, else the sentinel `"BYE"`. -/
def round0Name (players : List String) (s : ℕ) : String :=
  if s - 1 < players.length then players.getD (s - 1) "" else "BYE"

/-- The round-0 pairing list built by `KnockOut._StartMatches`
(`knockout.py` lines 1166-1185): one entry `[name, False, []]` per tree
slot. -/
def round0Pairing (players : List String) (k : ℕ) : List PairingEntry :=
  (seedTree k).map (fun s => ⟨round0Name players s, false, []⟩)

/-- The per-match pairing line computed by `KnockOut._StartGames`
(`knockout.py` lines 1221-1241): after the colour-dependent swap, a pair
containing `"BYE"` produces the line `"<opponent> 1"` (instructing the host
to award that player a full point with no game), otherwise
`"<white> <black>"` (scheduling a game). -/
def gamePairString (swapColors : Bool) (player1 player2 : String) : String :=
  let p1 := if swapColors then player2 else player1
  let p2 := if swapColors then player1 else player2
  if p1 = "BYE" ∨ p2 = "BYE" then
    if p1 = "BYE" then p2 ++ " 1" else p1 ++ " 1"
  else
    p1 ++ " " ++ p2

/-- No adjacent pair of a pairing round consists of two `"BYE"` entries. -/
def noByeByePair : List PairingEntry → Bool
  | e1 :: e2 :: rest =>
    (!(decide (e1.name = "BYE") && decide (e2.name = "BYE"))) && noByeByePair rest
  | _ => true

/-- Every adjacent pair of the list sums to `m` (the mirror-pair property of
the seed tree). -/
def pairsSumTo (m : ℕ) : List ℕ → Bool
  | x :: y :: rest => (x + y == m) && pairsSumTo m rest
  | _ => true

/-! ## Registration reconciliation (`knockout.py` lines 957-1066) -/

/-- The admission loop of `KnockOut._WaitForStart` (`knockout.py` lines
992-1015): walk the live registrant list; stop when the local roster has
reached `MaxParticipants`; admit any live registrant not yet local; after an
admission that reaches the maximum, stop (keeping that registrant). -/
def addNewParticipants (maxParticipants : ℕ) :
    List String → List String → List String
  | roster, [] => roster
  | roster, u :: rest =>
    if roster.length = maxParticipants then roster
    else if u ∈ roster then addNewParticipants maxParticipants roster rest
    else if maxParticipants ≤ (roster ++ [u]).length then roster ++ [u]
    else addNewParticipants maxParticipants (roster ++ [u]) rest

/-- One poll cycle of `KnockOut._WaitForStart` (`knockout.py` lines
981-1015): first remove locally-known participants absent from the live
list, then run the admission loop over the live list. -/
def pollCycle (maxParticipants : ℕ) (roster live : List String) : List String :=
  addNewParticipants maxParticipants
    (roster.filter (fun u => decide (u ∈ live))) live

/-- The decision taken when registration closes (`knockout.py` lines
1063-1069): with fewer confirmed participants than `MinParticipants`, call
`_KillTournament()` once (one remote-termination routine invocation) and
`sys.exit()` — which, with no argument, ends the Python process with exit
status 0. -/
inductive StartDecision where
  | proceed
  | abortTournament (terminateCalls : ℕ) (exitCode : ℕ)
deriving DecidableEq

/-- The below-minimum check at the end of `KnockOut._WaitForStart`
(`knockout.py` lines 1063-1069). -/
def closeRegistration (rosterSize minParticipants : ℕ) : StartDecision :=
  if rosterSize < minParticipants then .abortTournament 1 0 else .proceed

/-! ## Resilient requests (`knockout.py` lines 350-439) -/

/-- `KnockOut._ApiAttempts` (`knockout.py` line 83). -/
def apiAttempts : ℕ := 5

/-- Observable outcome of `_RunGetRequest` / `_RunPostRequest`: the
response of the first successful attempt, or process termination — after a
best-effort `_KillTournament()` call when `KillOnFail` is set, directly
otherwise. -/
inductive RequestOutcome where
  | success (attempt : ℕ)
  | abortThenExit
  | exitDirect
deriving DecidableEq

/-- The retry loop shared by `KnockOut._RunGetRequest` and
`KnockOut._RunPostRequest` (`knockout.py` lines 358-389 and 400-428):
up to `_ApiAttempts` attempts, stopping at the first success; on exhaustion
`sys.exit()` is always reached, preceded by `_KillTournament()` iff the
`KillOnFail` flag is set.  `attemptSucceeds i` records whether the `i`-th
attempt would succeed. -/
def runRequest (attemptSucceeds : ℕ → Bool) (killOnFail : Bool) : RequestOutcome :=
  match (List.range apiAttempts).find? (fun i => attemptSucceeds i) with
  | some i => .success i
  | none => if killOnFail then .abortThenExit else .exitDirect

/-! ## Waiting for a game round to finish (`knockout.py` lines 1296-1323) -/

/-- `KnockOut._GetRound` (`knockout.py` lines 291-292): the 0-based global
round index `CurMatch * GamesPerMatch + CurGame`. -/
def getRound (curMatch curGame gamesPerMatch : ℕ) : ℕ :=
  curMatch * gamesPerMatch + curGame

/-- The fields of the host's status report read by
`KnockOut._WaitForGamesToFinish`: `round`, `nbOngoing` and `status`. -/
structure SwissStatus where
  round : ℕ
  nbOngoing : ℕ
  status : String
deriving DecidableEq

/-- Decision on one host report. -/
inductive WaitDecision where
  | roundDone
  | exitEarly
  | keepWaiting
deriving DecidableEq

/-- One iteration of the loop in `KnockOut._WaitForGamesToFinish`
(`knockout.py` lines 1306-1321): break out when the reported `round` equals
`_GetRound() + 1` and `nbOngoing` is 0; otherwise `sys.exit()` when the
reported `status` is `"finished"`; otherwise keep polling. -/
def waitStep (expectedRound : ℕ) (st : SwissStatus) : WaitDecision :=
  if st.round = expectedRound + 1 ∧ st.nbOngoing = 0 then .roundDone
  else if st.status = "finished" then .exitEarly
  else .keepWaiting

/-- Overall outcome of the wait loop over a finite sequence of host
reports. -/
inductive WaitResult where
  | advanced
  | exited
  | stillWaiting
deriving DecidableEq

/-- The loop of `KnockOut._WaitForGamesToFinish` run over a finite sequence
of successive host reports. -/
def waitForGamesToFinish (expectedRound : ℕ) : List SwissStatus → WaitResult
  | [] => .stillWaiting
  | st :: rest =>
    match waitStep expectedRound st with
    | .roundDone => .advanced
    | .exitEarly => .exited
    | .keepWaiting => waitForGamesToFinish expectedRound rest

/-! ## Configuration validation and construction (`knockout.py` lines 85-281) -/

/-- The `Options` section of the configuration file, as read by
`KnockOut.__init__` (`knockout.py` lines 100-112). -/
structure KOConfig where
  maxParticipants : ℕ
  minParticipants : ℕ
  startAtMax : Bool
  gamesPerMatch : ℕ
  rated : Bool
  variant : String
  clockInit : ℕ
  clockInc : ℕ
  chatFor : ℕ
  randomizeSeeds : Bool
  eventName : String
  minutesToStart : ℕ
  tieBreak : String
deriving DecidableEq

/-- The character set allowed in event names (`knockout.py` line 232). -/
def eventChars : List Char :=
  "abcdefghijklmnopqrstuvwxyzABCDEFGHIJKLMNOPQRSTUVWXYZ0123456789 ,.-".toList

/-- `AllowedInit` (`knockout.py` lines 263-265). -/
def allowedClockInit : List ℕ :=
  [0, 15, 30, 45, 60, 90, 120, 180, 240, 300, 360, 420, 480, 600,
   900, 1200, 1500, 1800, 2400, 3000, 3600, 4200, 4800, 5400, 6000,
   6600, 7200, 7800, 8400, 9000, 9600, 10200, 10800]

/-- `AllVariants` (`knockout.py` lines 276-277). -/
def allVariants : List String :=
  ["standard", "chess960", "crazyhouse", "antichess", "atomic", "horde",
   "kingOfTheHill", "racingKings", "threeCheck", "fromPosition"]

/-- The per-option assertions of `KnockOut._ValidateInput` on the `Options`
section (`knockout.py` lines 231-281).  The token/team/repository checks,
which depend on network responses, are outside the embedding; boolean-ness
assertions are subsumed by typing. -/
def optionsValid (c : KOConfig) : Bool :=
  (c.eventName.toList.all (fun ch => decide (ch.toLower ∈ eventChars)))
  && (decide (2 ≤ c.eventName.length ∧ c.eventName.length ≤ 30)
      || decide (c.eventName = ""))
  && (decide (c.tieBreak = "rating") || decide (c.tieBreak = "color"))
  && (!decide (c.tieBreak = "color") || decide (c.gamesPerMatch % 2 = 1))
  && decide (5 ≤ c.minutesToStart)
  && decide (c.minutesToStart ≤ 60 * 24 * 7)
  && decide (4 ≤ c.minParticipants)
  && decide (c.minParticipants ≤ c.maxParticipants)
  && decide (c.maxParticipants ≤ 8192)
  && decide (1 ≤ c.gamesPerMatch)
  && decide (c.gamesPerMatch ≤ 20)
  && decide (c.clockInit ∈ allowedClockInit)
  && decide (c.clockInc ≤ 120)
  && decide (0 < c.clockInit + c.clockInc)
  && (decide ((c.clockInit, c.clockInc) ∉ [((0 : ℕ), (1 : ℕ)), (15, 0)])
      || decide (c.variant = "standard") || !c.rated)
  && decide (c.variant ∈ allVariants)
  && decide (c.chatFor ∈ [0, 10, 20, 30])

/-- Helper for `ceilLog2`, structurally recursive on a fuel argument so
that it evaluates inside the kernel; `fuel = n` always suffices. -/
def ceilLog2Fuel : ℕ → ℕ → ℕ
  | 0, _ => 0
  | fuel + 1, n => if n ≤ 1 then 0 else ceilLog2Fuel fuel ((n + 1) / 2) + 1

/-- Embeds `math.ceil(math.log2(n))` (`knockout.py` line 122): the least
`k` with `n ≤ 2 ^ k`, for `n ≥ 1`. -/
def ceilLog2 (n : ℕ) : ℕ := ceilLog2Fuel n n

/-- The round counts derived by `KnockOut.__init__`
(`knockout.py` lines 122-124). -/
structure KOState where
  matchRounds : ℕ
  totalRounds : ℕ
  treeSize : ℕ
deriving DecidableEq

/-- The pure part of `KnockOut.__init__` (`knockout.py` lines 85-147):
validate the options, derive `MatchRounds = ceil(log2(MaxParticipants))`,
`TotalRounds = GamesPerMatch * MatchRounds`, `TreeSize = 2 ** MatchRounds`,
then assert `3 <= TotalRounds <= 100` (lines 146-147).  `none` models a
fatal `AssertionError` before any tournament exists. -/
def mkKnockOut (c : KOConfig) : Option KOState :=
  if optionsValid c then
    if 3 ≤ c.gamesPerMatch * ceilLog2 c.maxParticipants ∧
        c.gamesPerMatch * ceilLog2 c.maxParticipants ≤ 100 then
      some ⟨ceilLog2 c.maxParticipants,
            c.gamesPerMatch * ceilLog2 c.maxParticipants,
            2 ^ ceilLog2 c.maxParticipants⟩
    else none
  else none

/-- The configuration of the spec's first end-to-end scenario:
`MaxParticipants = 4`, `MinParticipants = 4`, `GamesPerMatch = 1`,
`TieBreak = rating`, remaining options at legal values. -/
def configC1 : KOConfig :=
  ⟨4, 4, true, 1, false, "standard", 180, 2, 20, false, "Test Event", 10, "rating"⟩

/-- The same configuration with `GamesPerMatch = 2`, the smallest change
that satisfies the rounds assertion. -/
def configC1' : KOConfig :=
  ⟨4, 4, true, 2, false, "standard", 180, 2, 20, false, "Test Event", 10, "rating"⟩

/-- `MaxParticipants = 8192` with `GamesPerMatch = 20`: every option within
its documented range, but `TotalRounds = 260 > 100`. -/
def configBig : KOConfig :=
  ⟨8192, 4, true, 20, false, "standard", 180, 2, 20, false, "Test Event", 10, "rating"⟩

/-! ## C10: the hidden rounds bound in `KnockOut.__init__` -/

/-- C10: beyond the per-option ranges, construction of the tournament object
succeeds exactly when `3 <= GamesPerMatch * ceil(log2(MaxParticipants)) <= 100`
(the assertions at `knockout.py` lines 146-147); any configuration outside
this bound fails at startup even with every individual option in range. -/
theorem c10_round_bounds (c : KOConfig) (h : optionsValid c = true) :
    (mkKnockOut c).isSome ↔
      (3 ≤ c.gamesPerMatch * ceilLog2 c.maxParticipants ∧
       c.gamesPerMatch * ceilLog2 c.maxParticipants ≤ 100) := by
  by_cases h2 : 3 ≤ c.gamesPerMatch * ceilLog2 c.maxParticipants ∧
      c.gamesPerMatch * ceilLog2 c.maxParticipants ≤ 100
  · simp [mkKnockOut, h, h2]
  · simp [mkKnockOut, h, h2]

/-- C10 witness: `MaxParticipants = 8192` with `GamesPerMatch = 20` has every
option in its documented range, and construction fails since
`TotalRounds = 260` is outside `[3, 100]`. -/
theorem c10_round_bounds_witness :
    optionsValid configBig = true ∧
      ((mkKnockOut configBig).isSome ↔
        (3 ≤ configBig.gamesPerMatch * ceilLog2 configBig.maxParticipants ∧
         configBig.gamesPerMatch * ceilLog2 configBig.maxParticipants ≤ 100)) :=
  ⟨by decide, c10_round_bounds configBig (by decide)⟩

/-! ## C1: the 4-player end-to-end scenario -/

/-- C1 counterexample: with `MaxParticipants = 4` and `GamesPerMatch = 1`
(and every option valid), `KnockOut.__init__` fails its own assertion
`TotalRounds >= 3` (`knockout.py` line 146: `TotalRounds = 1 * 2 = 2`), so
the scenario's tournament is never set up at all. -/
theorem c1_scenario_cex :
    optionsValid configC1 = true ∧ mkKnockOut configC1 = none := by
  exact ⟨by decide, by decide⟩

/-- C1 amended: the stated configuration (`GamesPerMatch = 1`) fails the
rounds assertion at startup; raising `GamesPerMatch` to 2 (the smallest
change satisfying `TotalRounds >= 3`), the object is constructed with
`MatchRounds = 2` (semifinal and final), `TotalRounds = 4`, `TreeSize = 4`,
and the round-0 pairing places seed 1 vs seed 4 and seed 2 vs seed 3. -/
theorem c1_scenario_amended :
    mkKnockOut configC1 = none ∧
    mkKnockOut configC1' = some ⟨2, 4, 4⟩ ∧
    (round0Pairing ["seedOne", "seedTwo", "seedThree", "seedFour"] 2).map
      PairingEntry.name = ["seedOne", "seedFour", "seedTwo", "seedThree"] := by
  refine ⟨by decide, by decide, by decide⟩

/-! ## C2: swap behaviour of the tie-break resolution -/

/-- C2 counterexample: with equal scores and equal ratings in `rating` mode,
`Player1Won` is `True` in both argument orders (`knockout.py` line 1397:
`rating1 <= rating2`), so swapping the participants does not swap the winner
index. -/
theorem c2_swap_cex :
    ¬ (resolveMatch "rating" false 1 1 1500 1500 =
        !resolveMatch "rating" false 1 1 1500 1500) := by
  decide

/-- C2 amended: swapping the two participants (scores included) swaps the
winner index whenever the summed scores differ, and in `rating` mode also
whenever the ratings differ; on a dead tie the resolution is positional
(first-listed participant in `rating` mode, the colour-schedule side in
`color` mode), so there the winner index is preserved, not swapped. -/
theorem c2_swap_amended (tieBreak : String) (topGetsWhite : Bool)
    (s1 s2 : ℚ) (r1 r2 : ℕ)
    (h : s1 ≠ s2 ∨ (tieBreak = "rating" ∧ r1 ≠ r2)) :
    resolveMatch tieBreak topGetsWhite s1 s2 r1 r2 =
      !resolveMatch tieBreak topGetsWhite s2 s1 r2 r1 := by
  rcases lt_trichotomy s1 s2 with hlt | heq | hgt
  · have h1 : ¬ s1 > s2 := not_lt.mpr hlt.le
    simp [resolveMatch, gt_iff_lt, hlt, h1, not_lt.mpr hlt.le]
  · subst heq
    rcases h with h | ⟨ht, hr⟩
    · exact absurd rfl h
    · subst ht
      have h0 : ¬ s1 > s1 := lt_irrefl s1
      have h0' : ¬ s1 < s1 := lt_irrefl s1
      rcases Nat.lt_or_ge r1 r2 with hr1 | hr1
      · have e1 : r1 ≤ r2 := hr1.le
        have e2 : ¬ r2 ≤ r1 := by omega
        simp [resolveMatch, gt_iff_lt, h0, h0', e1, e2]
      · have e1 : r2 ≤ r1 := hr1
        have e2 : ¬ r1 ≤ r2 := by omega
        simp [resolveMatch, gt_iff_lt, h0, h0', e1, e2]
  · have h1 : ¬ s2 > s1 := not_lt.mpr hgt.le
    simp [resolveMatch, gt_iff_lt, hgt, h1, not_lt.mpr hgt.le]

/-- C2 witness: with scores 1 and 0 the hypothesis holds and the index
swaps. -/
theorem c2_swap_witness :
    ((1 : ℚ) ≠ 0 ∨ ("rating" = "rating" ∧ (1500 : ℕ) ≠ 1500)) ∧
    resolveMatch "rating" false 1 0 1500 1500 =
      !resolveMatch "rating" false 0 1 1500 1500 :=
  ⟨Or.inl (by norm_num),
   c2_swap_amended "rating" false 1 0 1500 1500 (Or.inl (by norm_num))⟩

/-! ## C3: match resolution rules in `rating` mode -/

/-- C3: for every concluded match (`KnockOut._FinishMatches`), the computed
winner flag `w` is stored on participant 1 and its negation on participant 2;
the participant with the higher summed score is marked winner, and on equal
scores in `rating` mode the winner flag is set iff participant 1's rating is
at most participant 2's — so the lower rating wins and an exact rating tie
goes to the first-listed participant. -/
theorem c3_resolution (topGetsWhite : Bool) (rating : String → ℕ)
    (e1 e2 : PairingEntry) (rest : List PairingEntry) :
    ∃ w : Bool,
      finishMatches "rating" topGetsWhite rating (e1 :: e2 :: rest) =
        { e1 with hasWon := w } :: { e2 with hasWon := !w } ::
          finishMatches "rating" topGetsWhite rating rest ∧
      (e2.gameScores.sum < e1.gameScores.sum → w = true) ∧
      (e1.gameScores.sum < e2.gameScores.sum → w = false) ∧
      (e1.gameScores.sum = e2.gameScores.sum →
        (w = true ↔ rating e1.name ≤ rating e2.name)) := by
  refine ⟨resolveMatch "rating" topGetsWhite e1.gameScores.sum e2.gameScores.sum
    (rating e1.name) (rating e2.name), rfl, ?_, ?_, ?_⟩
  · intro h
    simp [resolveMatch, gt_iff_lt, h]
  · intro h
    simp [resolveMatch, gt_iff_lt, h, not_lt.mpr h.le]
  · intro h
    have h0 : ¬ e2.gameScores.sum < e1.gameScores.sum := by rw [h]; exact lt_irrefl _
    have h0' : ¬ e1.gameScores.sum < e2.gameScores.sum := by rw [h]; exact lt_irrefl _
    by_cases hr : rating e1.name ≤ rating e2.name
    · simp [resolveMatch, gt_iff_lt, h0, h0', hr]
    · simp [resolveMatch, gt_iff_lt, h0, h0', hr]

/-! ## C6: registration closing below the minimum -/

/-- C6 counterexample: with 3 confirmed participants and `MinParticipants = 4`
the code calls `_KillTournament()` once and then `sys.exit()` with no
argument (`knockout.py` lines 1064-1066), which ends the Python process with
exit status 0 — not a non-zero failure signal. -/
theorem c6_below_min_cex :
    closeRegistration 3 4 = StartDecision.abortTournament 1 0 ∧
    ∀ k code : ℕ,
      closeRegistration 3 4 = StartDecision.abortTournament k code → code = 0 := by
  refine ⟨rfl, ?_⟩
  intro k code h
  have h' : StartDecision.abortTournament 1 0 = StartDecision.abortTournament k code := h
  injection h' with hk hc
  exact hc.symm

/-- C6 amended: for every final roster below the configured minimum at
registration close, remote termination (`_KillTournament`) is invoked exactly
once, registration is not retried, and the process ends — via a plain
`sys.exit()`, i.e. with exit status 0 rather than a non-zero failure code. -/
theorem c6_below_min_abort (n minParticipants : ℕ) (h : n < minParticipants) :
    closeRegistration n minParticipants = StartDecision.abortTournament 1 0 := by
  simp [closeRegistration, h]

/-- C6 witness: 3 registrants against a minimum of 4. -/
theorem c6_below_min_witness :
    3 < 4 ∧ closeRegistration 3 4 = StartDecision.abortTournament 1 0 :=
  ⟨by decide, c6_below_min_abort 3 4 (by decide)⟩

/-! ## C7: request retry exhaustion always ends the process -/

/-- C7: for every remote request, if all `_ApiAttempts = 5` attempts fail,
the process ends — after the best-effort `_KillTournament()` call iff the
`KillOnFail` flag was set — and a failed response is never returned: any
returned response comes from an attempt (below 5) that succeeded. -/
theorem c7_request_exhaustion (attemptSucceeds : ℕ → Bool) (killOnFail : Bool) :
    ((∀ i < apiAttempts, attemptSucceeds i = false) →
      runRequest attemptSucceeds killOnFail =
        (if killOnFail then .abortThenExit else .exitDirect)) ∧
    (∀ i, runRequest attemptSucceeds killOnFail = .success i →
      attemptSucceeds i = true ∧ i < apiAttempts) := by
  constructor
  · intro hall
    have hnone : (List.range apiAttempts).find? (fun i => attemptSucceeds i) = none := by
      rw [List.find?_eq_none]
      intro x hx
      simp [hall x (List.mem_range.mp hx)]
    simp [runRequest, hnone]
  · intro i h
    rcases hfind : (List.range apiAttempts).find? (fun i => attemptSucceeds i) with _ | j
    · rw [runRequest, hfind] at h
      cases killOnFail <;> simp at h
    · rw [runRequest, hfind] at h
      simp at h
      subst h
      exact ⟨by simpa using List.find?_some hfind,
        List.mem_range.mp (List.mem_of_find?_eq_some hfind)⟩

/-! ## C8: the wait-for-round-completion loop -/

/-- C8 counterexample: with `CurMatch = CurGame = 0` and `GamesPerMatch = 1`
the expected global round index is 0, yet the loop advances on a host report
with `round = 1` (the code compares against `_GetRound() + 1`,
`knockout.py` line 1312) — a report whose round counter does not match the
global round index. -/
theorem c8_wait_cex :
    waitForGamesToFinish (getRound 0 0 1) [⟨1, 0, "started"⟩] =
      WaitResult.advanced ∧
    (1 : ℕ) ≠ getRound 0 0 1 := by
  decide

/-- C8 amended: the orchestrator advances past the wait loop only when some
host report shows the round counter equal to the expected global round index
`CurMatch * GamesPerMatch + CurGame` **plus one** (the host's counter is
1-based) together with zero in-progress games; and a single poll step exits
the process iff that completion condition fails while the host reports
lifecycle status `"finished"` — with no retry and no further bracket
transition. -/
theorem c8_wait_loop_amended (curMatch curGame gamesPerMatch : ℕ)
    (reports : List SwissStatus) (st : SwissStatus) :
    (waitForGamesToFinish (getRound curMatch curGame gamesPerMatch) reports =
        WaitResult.advanced →
      ∃ r ∈ reports,
        r.round = getRound curMatch curGame gamesPerMatch + 1 ∧ r.nbOngoing = 0) ∧
    (waitStep (getRound curMatch curGame gamesPerMatch) st = WaitDecision.roundDone ↔
      (st.round = getRound curMatch curGame gamesPerMatch + 1 ∧ st.nbOngoing = 0)) ∧
    (waitStep (getRound curMatch curGame gamesPerMatch) st = WaitDecision.exitEarly ↔
      (¬(st.round = getRound curMatch curGame gamesPerMatch + 1 ∧ st.nbOngoing = 0) ∧
        st.status = "finished")) := by
  generalize getRound curMatch curGame gamesPerMatch = expected
  refine ⟨?_, ?_, ?_⟩
  · induction reports with
    | nil => intro h; simp [waitForGamesToFinish] at h
    | cons r rest ih =>
      intro h
      by_cases hc : r.round = expected + 1 ∧ r.nbOngoing = 0
      · exact ⟨r, List.mem_cons_self r rest, hc⟩
      · by_cases hs : r.status = "finished"
        · simp [waitForGamesToFinish, waitStep, hc, hs] at h
        · have h' : waitForGamesToFinish expected rest = WaitResult.advanced := by
            simpa [waitForGamesToFinish, waitStep, hc, hs] using h
          obtain ⟨r', hr', hcond⟩ := ih h'
          exact ⟨r', List.mem_cons_of_mem r hr', hcond⟩
  · by_cases hc : st.round = expected + 1 ∧ st.nbOngoing = 0
    · simp [waitStep, hc]
    · by_cases hs : st.status = "finished" <;> simp [waitStep, hc, hs]
  · by_cases hc : st.round = expected + 1 ∧ st.nbOngoing = 0
    · simp [waitStep, hc]
    · by_cases hs : st.status = "finished" <;> simp [waitStep, hc, hs]

/-! ## C4: the registration capacity invariant -/

/-- The admission loop never grows the roster beyond `MaxParticipants`. -/
theorem addNew_length_le (maxParticipants : ℕ) :
    ∀ (live roster : List String), roster.length ≤ maxParticipants →
      (addNewParticipants maxParticipants roster live).length ≤ maxParticipants
  | [], _, h => h
  | u :: rest, roster, h => by
    by_cases h1 : roster.length = maxParticipants
    · simp only [addNewParticipants, if_pos h1]
      exact h
    · by_cases h2 : u ∈ roster
      · simpa [addNewParticipants, h1, h2] using
          addNew_length_le maxParticipants rest roster h
      · by_cases h3 : maxParticipants ≤ (roster ++ [u]).length
        · simp only [addNewParticipants, if_neg h1, if_neg h2, if_pos h3]
          simp only [List.length_append, List.length_singleton]
          omega
        · have h4 : (roster ++ [u]).length ≤ maxParticipants := by
            simp only [List.length_append, List.length_singleton] at h3 ⊢
            omega
          simp only [addNewParticipants, if_neg h1, if_neg h2, if_neg h3]
          exact addNew_length_le maxParticipants rest (roster ++ [u]) h4

/-- Once the roster has exactly `MaxParticipants` entries, the admission
loop admits nobody (the `break` at `knockout.py` lines 994-995). -/
theorem addNew_at_max (maxParticipants : ℕ) (roster live : List String)
    (h : roster.length = maxParticipants) :
    addNewParticipants maxParticipants roster live = roster := by
  cases live with
  | nil => rfl
  | cons u rest => simp [addNewParticipants, h]

/-- The admission loop only appends: the incoming roster — including any
registrant whose admission reached the maximum — is kept in place, and every
appended registrant comes from the live list and was not already local. -/
theorem addNew_decomp (maxParticipants : ℕ) :
    ∀ (live roster : List String),
      ∃ admitted : List String,
        addNewParticipants maxParticipants roster live = roster ++ admitted ∧
        ∀ u ∈ admitted, u ∈ live ∧ u ∉ roster
  | [], roster => ⟨[], by simp [addNewParticipants]⟩
  | u :: rest, roster => by
    by_cases h1 : roster.length = maxParticipants
    · exact ⟨[], by simp [addNewParticipants, h1]⟩
    · by_cases h2 : u ∈ roster
      · obtain ⟨adm, he, hp⟩ := addNew_decomp maxParticipants rest roster
        refine ⟨adm, by simp [addNewParticipants, h1, h2, he], fun v hv => ?_⟩
        exact ⟨List.mem_cons_of_mem u (hp v hv).1, (hp v hv).2⟩
      · by_cases h3 : maxParticipants ≤ (roster ++ [u]).length
        · refine ⟨[u], by simp only [addNewParticipants, if_neg h1, if_neg h2, if_pos h3], ?_⟩
          intro v hv
          rw [List.mem_singleton] at hv
          subst hv
          exact ⟨List.mem_cons_self _ _, h2⟩
        · obtain ⟨adm, he, hp⟩ := addNew_decomp maxParticipants rest (roster ++ [u])
          refine ⟨u :: adm, ?_, ?_⟩
          · simp only [addNewParticipants, if_neg h1, if_neg h2, if_neg h3, he]
            simp
          · intro v hv
            rcases List.mem_cons.mp hv with rfl | hv'
            · exact ⟨List.mem_cons_self v rest, h2⟩
            · obtain ⟨hl, hr⟩ := hp v hv'
              exact ⟨List.mem_cons_of_mem u hl,
                fun hc => hr (List.mem_append_left [u] hc)⟩

/-- C4: in every poll cycle of `KnockOut._WaitForStart` starting from a
roster within capacity, (1) the reconciled roster never exceeds
`MaxParticipants`; (2) if the roster (after removals) already holds
`MaxParticipants`, no registrant examined in this cycle is admitted; (3) the
cycle only appends to the post-removal roster — so the registrant whose
admission reached the maximum is kept — and every admitted registrant is a
live registrant that was not yet in the roster. -/
theorem c4_registration_capacity (maxParticipants : ℕ)
    (roster live : List String) (h : roster.length ≤ maxParticipants) :
    (pollCycle maxParticipants roster live).length ≤ maxParticipants ∧
    ((roster.filter (fun u => decide (u ∈ live))).length = maxParticipants →
      pollCycle maxParticipants roster live =
        roster.filter (fun u => decide (u ∈ live))) ∧
    ∃ admitted : List String,
      pollCycle maxParticipants roster live =
        roster.filter (fun u => decide (u ∈ live)) ++ admitted ∧
      ∀ u ∈ admitted,
        u ∈ live ∧ u ∉ roster.filter (fun u => decide (u ∈ live)) := by
  have hf : (roster.filter (fun u => decide (u ∈ live))).length ≤ maxParticipants :=
    le_trans (List.length_filter_le _ _) h
  exact ⟨addNew_length_le maxParticipants live _ hf,
    fun hmax => addNew_at_max maxParticipants _ live hmax,
    addNew_decomp maxParticipants live _⟩

/-- C4 witness: capacity 3, two confirmed participants (one of whom left),
four live registrants. -/
theorem c4_registration_capacity_witness :
    (["alice", "zoe"] : List String).length ≤ 3 ∧
    ((pollCycle 3 ["alice", "zoe"] ["alice", "bob", "carl", "dave"]).length ≤ 3 ∧
    ((["alice", "zoe"].filter
        (fun u => decide (u ∈ ["alice", "bob", "carl", "dave"]))).length = 3 →
      pollCycle 3 ["alice", "zoe"] ["alice", "bob", "carl", "dave"] =
        ["alice", "zoe"].filter
          (fun u => decide (u ∈ ["alice", "bob", "carl", "dave"]))) ∧
    ∃ admitted : List String,
      pollCycle 3 ["alice", "zoe"] ["alice", "bob", "carl", "dave"] =
        ["alice", "zoe"].filter
          (fun u => decide (u ∈ ["alice", "bob", "carl", "dave"])) ++ admitted ∧
      ∀ u ∈ admitted,
        u ∈ ["alice", "bob", "carl", "dave"] ∧
          u ∉ ["alice", "zoe"].filter
            (fun u => decide (u ∈ ["alice", "bob", "carl", "dave"]))) :=
  ⟨by decide,
   c4_registration_capacity 3 ["alice", "zoe"]
     ["alice", "bob", "carl", "dave"] (by decide)⟩

/-! ## C5: round conclusion and winner promotion -/

/-- After `_FinishMatches` runs, every adjacent pair carries exactly one
winner flag. -/
theorem pairsComplete_finishMatches (tieBreak : String) (topGetsWhite : Bool)
    (rating : String → ℕ) :
    ∀ round : List PairingEntry,
      pairsComplete (finishMatches tieBreak topGetsWhite rating round) = true
  | [] => rfl
  | [_] => rfl
  | e1 :: e2 :: rest => by
    have ih := pairsComplete_finishMatches tieBreak topGetsWhite rating rest
    simp only [finishMatches, pairsComplete, ih, Bool.and_true]
    cases resolveMatch tieBreak topGetsWhite e1.gameScores.sum e2.gameScores.sum
      (rating e1.name) (rating e2.name) <;> rfl

/-- When every pair has exactly one winner, the `m > 0` branch of
`_StartMatches` promotes exactly the winner of each pair, in pair order. -/
theorem nextRound_complete :
    ∀ prev : List PairingEntry, pairsComplete prev = true →
      nextRound prev = some (promoteWinners prev)
  | [], _ => rfl
  | [_], _ => rfl
  | e1 :: e2 :: rest, h => by
    have h' := h
    simp only [pairsComplete, Bool.and_eq_true, bne_iff_ne, ne_eq] at h'
    obtain ⟨h1, h2⟩ := h'
    simp [nextRound, promoteWinners, h1, nextRound_complete rest h2]

/-- When some pair has both or neither entry marked winner, the `m > 0`
branch of `_StartMatches` hits its assertion before any promotion is
stored. -/
theorem nextRound_incomplete :
    ∀ prev : List PairingEntry, pairsComplete prev = false →
      nextRound prev = none
  | [], h => by simp [pairsComplete] at h
  | [_], h => by simp [pairsComplete] at h
  | e1 :: e2 :: rest, h => by
    by_cases he : e1.hasWon = e2.hasWon
    · simp [nextRound, he]
    · have h2 : pairsComplete rest = false := by
        simpa [pairsComplete, bne_iff_ne, he] using h
      simp [nextRound, he, nextRound_incomplete rest h2]

/-- The promoted round has half the length of the concluded round. -/
theorem promoteWinners_length :
    ∀ prev : List PairingEntry, (promoteWinners prev).length = prev.length / 2
  | [] => by simp [promoteWinners]
  | [_] => by simp [promoteWinners]
  | _ :: _ :: rest => by
    simp only [promoteWinners, List.length_cons, promoteWinners_length rest]
    omega

/-- Every promoted entry starts with a cleared winner flag and empty game
scores. -/
theorem promoteWinners_fresh :
    ∀ prev : List PairingEntry, ∀ e ∈ promoteWinners prev,
      e.hasWon = false ∧ e.gameScores = []
  | [] => by simp [promoteWinners]
  | [_] => by simp [promoteWinners]
  | e1 :: e2 :: rest => by
    intro e he
    rcases List.mem_cons.mp he with rfl | he'
    · exact ⟨rfl, rfl⟩
    · exact promoteWinners_fresh rest e he'

/-- C5: concluding a match round (`_FinishMatches`) sets exactly one winner
flag in every adjacent pair; building the next match round
(`_StartMatches`, `m > 0`) succeeds exactly on rounds satisfying that
invariant and then yields the list of each pair's winner in order — of half
the length, with winner flags reset and empty game scores — while a pair
with both or neither winner makes the builder fail (fatal assertion) before
any promotion. -/
theorem c5_round_promotion (tieBreak : String) (topGetsWhite : Bool)
    (rating : String → ℕ) (round prev : List PairingEntry) :
    pairsComplete (finishMatches tieBreak topGetsWhite rating round) = true ∧
    (pairsComplete prev = true → nextRound prev = some (promoteWinners prev)) ∧
    (pairsComplete prev = false → nextRound prev = none) ∧
    (promoteWinners prev).length = prev.length / 2 ∧
    (∀ e ∈ promoteWinners prev, e.hasWon = false ∧ e.gameScores = []) :=
  ⟨pairsComplete_finishMatches tieBreak topGetsWhite rating round,
   nextRound_complete prev, nextRound_incomplete prev,
   promoteWinners_length prev, promoteWinners_fresh prev⟩

/-! ## C9: seed-tree permutation, byes and bye games -/

/-- Interleaving each element with its mirror is a permutation of the list
followed by the mirrored list. -/
theorem flatMap_pair_perm (l : List ℕ) (g : ℕ → ℕ) :
    (l.flatMap fun x => [x, g x]).Perm (l ++ l.map g) := by
  have h := List.map_append_flatMap_perm l id (fun x => [g x])
  rw [List.map_id, ← List.map_eq_flatMap] at h
  exact h.symm

/-- Mapping `x ↦ t - x` over an ascending unit range yields a descending
unit range, written as a reverse. -/
theorem map_sub_reverse (t : ℕ) :
    ∀ (m s : ℕ), s + m ≤ t + 1 →
      (List.range' s m).map (fun x => t - x) = (List.range' (t + 1 - s - m) m).reverse
  | 0, _, _ => rfl
  | m + 1, s, h => by
    rw [List.range'_succ, List.map_cons, map_sub_reverse t m (s + 1) (by omega),
      List.range'_1_concat, List.reverse_append, List.reverse_singleton,
      List.singleton_append]
    congr 2
    · omega
    · congr 1
      omega

/-- Modelled from the spec (§3 SeedTree invariant): the seed tree for
`TreeSize = 2^k` is a permutation of the seed ranks `1 .. 2^k`. -/
theorem seedTree_perm : ∀ k : ℕ, (seedTree k).Perm (List.range' 1 (2 ^ k))
  | 0 => List.Perm.refl _
  | k + 1 => by
    have ih := seedTree_perm k
    have step1 : (seedTree (k + 1)).Perm
        ((List.range' 1 (2 ^ k)).flatMap fun x => [x, 2 ^ (k + 1) + 1 - x]) :=
      List.Perm.flatMap_right _ ih
    have step2 : ((List.range' 1 (2 ^ k)).flatMap fun x => [x, 2 ^ (k + 1) + 1 - x]).Perm
        (List.range' 1 (2 ^ k) ++
          (List.range' 1 (2 ^ k)).map fun x => 2 ^ (k + 1) + 1 - x) :=
      flatMap_pair_perm _ _
    have step3 : (List.range' 1 (2 ^ k)).map (fun x => 2 ^ (k + 1) + 1 - x) =
        (List.range' (2 ^ k + 1) (2 ^ k)).reverse := by
      have hb : 1 + 2 ^ k ≤ (2 ^ (k + 1) + 1) + 1 := by
        have : 2 ^ k ≤ 2 ^ (k + 1) := Nat.pow_le_pow_right (by norm_num) (Nat.le_succ k)
        omega
      have := map_sub_reverse (2 ^ (k + 1) + 1) (2 ^ k) 1 hb
      rw [this]
      congr 2
      have : 2 ^ (k + 1) = 2 ^ k + 2 ^ k := by rw [pow_succ]; ring
      omega
    have step4 : (List.range' 1 (2 ^ k) ++ List.range' (2 ^ k + 1) (2 ^ k)) =
        List.range' 1 (2 ^ (k + 1)) := by
      have h := List.range'_append 1 (2 ^ k) (2 ^ k) 1
      simp only [one_mul] at h
      rw [Nat.add_comm 1 (2 ^ k)] at h
      rw [h]
      congr 1
      rw [pow_succ]
      ring
    have step5 : (List.range' 1 (2 ^ k) ++
        (List.range' 1 (2 ^ k)).map fun x => 2 ^ (k + 1) + 1 - x).Perm
        (List.range' 1 (2 ^ (k + 1))) := by
      rw [step3, ← step4]
      exact List.Perm.append_left _ (List.reverse_perm _)
    exact step1.trans (step2.trans step5)

/-- The seed tree for `TreeSize = 2^k` has `2^k` slots. -/
theorem seedTree_length (k : ℕ) : (seedTree k).length = 2 ^ k := by
  rw [(seedTree_perm k).length_eq, List.length_range']

/-- The seed ranks in the tree are exactly `1 .. 2^k`. -/
theorem mem_seedTree (k : ℕ) {x : ℕ} : x ∈ seedTree k ↔ 1 ≤ x ∧ x ≤ 2 ^ k := by
  rw [(seedTree_perm k).mem_iff, List.mem_range'_1]
  omega

/-- The name column of the round-0 pairing list is the seed tree mapped
through the slot-naming rule. -/
theorem round0_names (players : List String) (k : ℕ) :
    (round0Pairing players k).map PairingEntry.name =
      (seedTree k).map (round0Name players) := by
  rw [round0Pairing, List.map_map]
  rfl

/-- Mapped over the seed ranks `1 .. 2^k`, the slot-naming rule yields the
participants (each once, in roster order) together with `2^k - n` `"BYE"`
slots. -/
theorem names_perm (players : List String) (k : ℕ)
    (h : players.length ≤ 2 ^ k) :
    ((seedTree k).map (round0Name players)).Perm
      (players ++ List.replicate (2 ^ k - players.length) "BYE") := by
  refine ((seedTree_perm k).map _).trans ?_
  have hsplit : List.range' 1 (2 ^ k) =
      List.range' 1 players.length ++
        List.range' (1 + players.length) (2 ^ k - players.length) := by
    have hr := List.range'_append 1 players.length (2 ^ k - players.length) 1
    simp only [one_mul] at hr
    rw [hr]
    congr 1
    omega
  rw [hsplit, List.map_append]
  have hA : (List.range' 1 players.length).map (round0Name players) = players := by
    apply List.ext_getElem
    · simp [List.length_range']
    · intro i h1 h2
      simp only [List.getElem_map, List.getElem_range']
      have hi : i < players.length := h2
      rw [round0Name]
      have e1 : 1 + 1 * i - 1 = i := by omega
      rw [e1, if_pos hi, List.getD_eq_getElem players "" hi]
  have hB : (List.range' (1 + players.length) (2 ^ k - players.length)).map
      (round0Name players) = List.replicate (2 ^ k - players.length) "BYE" := by
    rw [List.eq_replicate_iff]
    constructor
    · simp [List.length_range']
    · intro b hb
      rw [List.mem_map] at hb
      obtain ⟨s, hs, rfl⟩ := hb
      rw [List.mem_range'_1] at hs
      rw [round0Name, if_neg]
      omega
  rw [hA, hB]

/-- Interleaving each element with its mirror makes every adjacent pair sum
to `m + 1`. -/
theorem pairsSumTo_flatMap (m : ℕ) :
    ∀ l : List ℕ, (∀ x ∈ l, x ≤ m) →
      pairsSumTo (m + 1) (l.flatMap fun x => [x, m + 1 - x]) = true
  | [], _ => rfl
  | x :: rest, h => by
    have hx : x ≤ m := h x (List.mem_cons_self x rest)
    have ih := pairsSumTo_flatMap m rest (fun y hy => h y (List.mem_cons_of_mem x hy))
    show ((x + (m + 1 - x) == m + 1) &&
      pairsSumTo (m + 1) (rest.flatMap fun y => [y, m + 1 - y])) = true
    rw [ih, Bool.and_true, beq_iff_eq]
    omega

/-- Every adjacent pair of the seed tree for `TreeSize = 2^k` consists of
mirror seeds summing to `2^k + 1` (so seed 1 meets seed `2^k` first, and so
on). -/
theorem seedTree_pairsSum : ∀ k : ℕ, pairsSumTo (2 ^ k + 1) (seedTree k) = true
  | 0 => rfl
  | k + 1 => by
    have hb : ∀ x ∈ seedTree k, x ≤ 2 ^ (k + 1) := by
      intro x hx
      have h1 := (mem_seedTree k).mp hx
      have h2 : 2 ^ k ≤ 2 ^ (k + 1) := Nat.pow_le_pow_right (by norm_num) (Nat.le_succ k)
      omega
    exact pairsSumTo_flatMap (2 ^ (k + 1)) (seedTree k) hb

/-- A slot whose seed rank points into the roster is named after a
participant, never `"BYE"`. -/
theorem round0Name_ne_bye (players : List String) (hbye : "BYE" ∉ players)
    {s : ℕ} (hs : s - 1 < players.length) : round0Name players s ≠ "BYE" := by
  rw [round0Name, if_pos hs]
  intro hcon
  apply hbye
  rw [← hcon, List.getD_eq_getElem players "" hs]
  exact List.getElem_mem hs

/-- On a list whose adjacent pairs sum to `T + 1` with `T` below twice the
roster size, no adjacent pair of slots is `"BYE"` against `"BYE"`. -/
theorem noBye_aux (players : List String) (hbye : "BYE" ∉ players) (T : ℕ)
    (hT : T < 2 * players.length) :
    ∀ l : List ℕ, pairsSumTo (T + 1) l = true →
      noByeByePair (l.map fun s => ⟨round0Name players s, false, []⟩) = true
  | [], _ => rfl
  | [_], _ => rfl
  | x :: y :: rest, h => by
    simp only [pairsSumTo, Bool.and_eq_true, beq_iff_eq] at h
    obtain ⟨hxy, hrest⟩ := h
    have ih := noBye_aux players hbye T hT rest hrest
    simp only [List.map_cons, noByeByePair, ih, Bool.and_true]
    by_cases hx : x - 1 < players.length
    · simp [round0Name_ne_bye players hbye hx]
    · by_cases hy : y - 1 < players.length
      · simp [round0Name_ne_bye players hbye hy]
      · exfalso
        omega

/-- A game against `"BYE"` is never scheduled: in either colour order, the
pairing line awards the opponent a full point. -/
theorem gamePairString_bye (swapColors : Bool) (p : String) (hp : p ≠ "BYE") :
    gamePairString swapColors "BYE" p = p ++ " 1" ∧
    gamePairString swapColors p "BYE" = p ++ " 1" := by
  cases swapColors <;> exact ⟨by simp [gamePairString, hp], by simp [gamePairString, hp]⟩

/-- C9: for a frozen roster of `n` distinct participants (none named
`"BYE"`) with `TreeSize = 2^k` the smallest power of two at least `n`
(`n ≤ 2^k < 2n`), the round-0 pairing list has length `TreeSize`, names each
participant exactly once, has exactly `TreeSize - n` `"BYE"` entries, and no
pair consists of two byes; and when a game round starts, a pair containing a
`"BYE"` schedules no game and instead emits the pairing line awarding the
opponent a full point, in either colour order. -/
theorem c9_round0_byes (k : ℕ) (players : List String)
    (hnd : players.Nodup) (hbye : "BYE" ∉ players)
    (hub : players.length ≤ 2 ^ k) (hlb : 2 ^ k < 2 * players.length) :
    (round0Pairing players k).length = 2 ^ k ∧
    (∀ p ∈ players, ((round0Pairing players k).map PairingEntry.name).count p = 1) ∧
    ((round0Pairing players k).map PairingEntry.name).count "BYE" =
      2 ^ k - players.length ∧
    noByeByePair (round0Pairing players k) = true ∧
    (∀ (swapColors : Bool) (p : String), p ≠ "BYE" →
      gamePairString swapColors "BYE" p = p ++ " 1" ∧
      gamePairString swapColors p "BYE" = p ++ " 1") := by
  have hperm : ((round0Pairing players k).map PairingEntry.name).Perm
      (players ++ List.replicate (2 ^ k - players.length) "BYE") := by
    rw [round0_names]
    exact names_perm players k hub
  refine ⟨?_, ?_, ?_, ?_, fun sc p hp => gamePairString_bye sc p hp⟩
  · rw [round0Pairing, List.length_map, seedTree_length]
  · intro p hp
    have hpne : ("BYE" == p) = false := by
      rw [beq_eq_false_iff_ne]
      intro hcon
      exact hbye (hcon ▸ hp)
    rw [hperm.count_eq, List.count_append, List.count_eq_one_of_mem hnd hp,
      List.count_replicate, if_neg (by simp [hpne])]
  · rw [hperm.count_eq, List.count_append, List.count_eq_zero.mpr hbye,
      List.count_replicate, if_pos (by simp)]
    omega
  · exact noBye_aux players hbye (2 ^ k) hlb (seedTree k) (seedTree_pairsSum k)

/-- C9 witness: a field of five players with `TreeSize = 8`. -/
theorem c9_round0_byes_witness :
    ((["ann", "ben", "cal", "deb", "eve"] : List String).Nodup ∧
     "BYE" ∉ (["ann", "ben", "cal", "deb", "eve"] : List String) ∧
     (["ann", "ben", "cal", "deb", "eve"] : List String).length ≤ 2 ^ 3 ∧
     2 ^ 3 < 2 * (["ann", "ben", "cal", "deb", "eve"] : List String).length) ∧
    ((round0Pairing ["ann", "ben", "cal", "deb", "eve"] 3).length = 2 ^ 3 ∧
    (∀ p ∈ (["ann", "ben", "cal", "deb", "eve"] : List String),
      ((round0Pairing ["ann", "ben", "cal", "deb", "eve"] 3).map
        PairingEntry.name).count p = 1) ∧
    ((round0Pairing ["ann", "ben", "cal", "deb", "eve"] 3).map
      PairingEntry.name).count "BYE" =
        2 ^ 3 - (["ann", "ben", "cal", "deb", "eve"] : List String).length ∧
    noByeByePair (round0Pairing ["ann", "ben", "cal", "deb", "eve"] 3) = true ∧
    (∀ (swapColors : Bool) (p : String), p ≠ "BYE" →
      gamePairString swapColors "BYE" p = p ++ " 1" ∧
      gamePairString swapColors p "BYE" = p ++ " 1")) :=
  ⟨⟨by decide, by decide, by decide, by decide⟩,
   c9_round0_byes 3 ["ann", "ben", "cal", "deb", "eve"]
     (by decide) (by decide) (by decide) (by decide)⟩
